import Mathlib

/-
  Shallow embedding of src/data_visualisation_confectionary.py.

  The script is a linear pandas pipeline: load a spreadsheet, normalize
  column names (lines 22-27), parse the Date column day-first with
  coercion of failures to NaT (line 30), drop duplicate rows and rows
  with a missing Date (line 33), sort by Date (line 36), derive the
  Year, Month and Profit_Margin_% columns (lines 39-41), and compute
  three aggregates: avg_margin (lines 56-60), region_revenue
  (lines 65-69) and peak_month (lines 74-80).

  The frame is modelled as a list of rows; numeric cells use `PFloat`,
  an exact model of the pandas/NumPy float special values (finite
  rationals plus +inf, -inf and NaN, NaN being the missing marker).
  `pd.to_datetime(..., dayfirst=True, errors="coerce")` is modelled by
  a day-first `DD/MM/YYYY` parser returning `none` on failure, and
  `sort_values` by a deterministic (insertion) sort on the stated key;
  the quicksort pandas uses differs from it only in the order of rows
  with equal keys, which no property below depends on.
-/

namespace Confectionary

/- Rational arithmetic through `mkRat`. The field operations of the core
   `Rat` type are compiled externs whose Lean bodies do not reduce inside
   the kernel, so the pipeline uses these equivalent definitions; the
   lemmas qadd_eq, qmul_eq, qinv_eq and qdiv_eq below prove each one
   equal to the corresponding field operation on ℚ. -/

def qadd (a b : ℚ) : ℚ := mkRat (a.num * b.den + b.num * a.den) (a.den * b.den)

def qmul (a b : ℚ) : ℚ := mkRat (a.num * b.num) (a.den * b.den)

def qinv (a : ℚ) : ℚ :=
  if 0 ≤ a.num then mkRat a.den a.num.natAbs else mkRat (-(a.den : Int)) a.num.natAbs

def qdiv (a b : ℚ) : ℚ := qmul a (qinv b)

/- Character-list models of the string primitives the script uses
   (`str.strip`, `str.replace`, `str.split`, string comparison). The
   corresponding core String functions are compiled loops that do not
   reduce inside the kernel; `String` is a structure over `List Char`,
   so these definitions work on `.data` directly. -/

def trimChars (l : List Char) : List Char :=
  ((l.dropWhile Char.isWhitespace).reverse.dropWhile Char.isWhitespace).reverse

/- Replace every (non-overlapping, leftmost-first) occurrence of `pat`
   by `rep`; `fuel` bounds the recursion and is instantiated with the
   length of the subject list, which suffices because every step
   consumes at least one character. -/
def replaceFuel (pat rep : List Char) : Nat → List Char → List Char
  | _, [] => []
  | 0, l => l
  | fuel + 1, c :: cs =>
      if pat.isPrefixOf (c :: cs) then
        rep ++ replaceFuel pat rep fuel ((c :: cs).drop pat.length)
      else c :: replaceFuel pat rep fuel cs

def replaceStr (s pat rep : String) : String :=
  ⟨replaceFuel pat.data rep.data s.data.length s.data⟩

def trimStr (s : String) : String := ⟨trimChars s.data⟩

/- `String.splitOn "/"`, specialised to the single-character separator
   the Date format uses. -/
def splitSlash : List Char → List (List Char)
  | [] => [[]]
  | c :: cs =>
      if c = '/' then [] :: splitSlash cs
      else
        match splitSlash cs with
        | [] => [[c]]
        | a :: as => (c :: a) :: as

/- Decimal digit-string to number, `String.toNat?`-style: `none` unless
   the (nonempty) string is all digits. -/
def digitsToNatAux (acc : Nat) : List Char → Option Nat
  | [] => some acc
  | c :: cs => if c.isDigit then digitsToNatAux (acc * 10 + (c.toNat - 48)) cs else none

def digitsToNat : List Char → Option Nat
  | [] => none
  | l => digitsToNatAux 0 l

/- Code-point lexicographic string order, as Python compares `str`. -/
def charListLe : List Char → List Char → Bool
  | [], _ => true
  | _ :: _, [] => false
  | a :: as, b :: bs =>
      decide (a.toNat < b.toNat) || (a.toNat == b.toNat && charListLe as bs)

/- Pandas/NumPy floating-point values, restricted to exact rationals plus
   the special values +inf, -inf and NaN (the missing-value marker). -/
inductive PFloat where
  | fin (q : ℚ)
  | posInf
  | negInf
  | nan
deriving DecidableEq, Repr

namespace PFloat

def isNan : PFloat → Bool
  | nan => true
  | _ => false

/- NumPy elementwise division: dividing a nonzero value by zero yields
   a signed infinity and 0/0 yields NaN; no exception is raised. -/
def pdiv : PFloat → PFloat → PFloat
  | nan, _ => nan
  | _, nan => nan
  | fin p, fin q =>
      if q = 0 then (if p = 0 then nan else if 0 < p then posInf else negInf)
      else fin (qdiv p q)
  | fin _, posInf => fin 0
  | fin _, negInf => fin 0
  | posInf, fin q => if 0 ≤ q then posInf else negInf
  | negInf, fin q => if 0 ≤ q then negInf else posInf
  | posInf, posInf => nan
  | posInf, negInf => nan
  | negInf, posInf => nan
  | negInf, negInf => nan

/- Multiplication by the positive literal 100, as in `(...) * 100`. -/
def pmul100 : PFloat → PFloat
  | fin q => fin (qmul q 100)
  | posInf => posInf
  | negInf => negInf
  | nan => nan

/- IEEE addition on the modelled values. -/
def padd : PFloat → PFloat → PFloat
  | nan, _ => nan
  | _, nan => nan
  | fin p, fin q => fin (qadd p q)
  | fin _, posInf => posInf
  | posInf, fin _ => posInf
  | fin _, negInf => negInf
  | negInf, fin _ => negInf
  | posInf, posInf => posInf
  | negInf, negInf => negInf
  | posInf, negInf => nan
  | negInf, posInf => nan

/- Division by a natural count (used for means, count is positive there). -/
def pdivn : PFloat → Nat → PFloat
  | fin q, n => fin (qdiv q (mkRat n 1))
  | posInf, _ => posInf
  | negInf, _ => negInf
  | nan, _ => nan

/- Comparison key used for `sort_values(ascending=False)`: NaN compares
   below everything, so that reversing the order places NaN last, which
   is pandas' default na_position="last". -/
def ple : PFloat → PFloat → Bool
  | nan, _ => true
  | _, nan => false
  | negInf, _ => true
  | _, negInf => false
  | posInf, posInf => true
  | fin _, posInf => true
  | posInf, fin _ => false
  | fin p, fin q => decide (p ≤ q)

end PFloat

def psum (xs : List PFloat) : PFloat := xs.foldr PFloat.padd (PFloat.fin 0)

/- `Series.sum` with the default skipna=True: NaN entries are ignored and
   an empty or all-NaN series sums to 0. -/
def psumSkipna (xs : List PFloat) : PFloat :=
  psum (xs.filter (fun x => !x.isNan))

/- `Series.mean` with the default skipna=True: NaN entries are excluded
   from both the sum and the count; the mean of an empty or all-NaN
   series is NaN. -/
def pmean (xs : List PFloat) : PFloat :=
  let ys := xs.filter (fun x => !x.isNan)
  if ys.isEmpty then PFloat.nan else PFloat.pdivn (psum ys) ys.length

/- A calendar date as parsed from the Date column. -/
structure PDate where
  y : Nat
  m : Nat
  d : Nat
deriving DecidableEq, Repr

def daysInMonth (y m : Nat) : Nat :=
  if m = 2 then (if y % 4 = 0 ∧ (y % 100 ≠ 0 ∨ y % 400 = 0) then 29 else 28)
  else if m = 4 ∨ m = 6 ∨ m = 9 ∨ m = 11 then 30 else 31

/- Chronological key: for valid dates it orders lexicographically by
   (year, month, day), since month < 16 and day < 32. -/
def PDate.key (dt : PDate) : Nat := (dt.y * 16 + dt.m) * 32 + dt.d

/- Line 30: `pd.to_datetime(s, dayfirst=True, errors="coerce")` on one
   cell, modelled for day-first `DD/MM/YYYY` strings: any value that
   fails to parse becomes the missing marker `none` (pandas NaT), never
   an error. -/
def parseDate (s : String) : Option PDate :=
  match splitSlash s.data with
  | [ds, ms, ys] =>
    match digitsToNat ds, digitsToNat ms, digitsToNat ys with
    | some d, some m, some y =>
        if 1 ≤ m ∧ m ≤ 12 ∧ 1 ≤ d ∧ d ≤ daysInMonth y m then some ⟨y, m, d⟩
        else none
    | _, _, _ => none
  | _ => none

/- `Series.dt.month_name()`: the full English month name. -/
def month_name (m : Nat) : String :=
  match m with
  | 1 => "January"
  | 2 => "February"
  | 3 => "March"
  | 4 => "April"
  | 5 => "May"
  | 6 => "June"
  | 7 => "July"
  | 8 => "August"
  | 9 => "September"
  | 10 => "October"
  | 11 => "November"
  | 12 => "December"
  | _ => ""

/- Lines 22-27: normalize one column label: strip surrounding whitespace,
   replace " " by "_", replace the literal token "(£)" by "GBP", then
   delete the remaining parenthesis characters. -/
def cleanColumnName (s : String) : String :=
  replaceStr (replaceStr (replaceStr (replaceStr (trimStr s) " " "_") "(£)" "GBP") "(" "") ")" ""

/- The loader's expected source schema (spreadsheet column headers). -/
def sourceColumns : List String :=
  ["Date", "Confectionary", "CountryUK", "Units Sold", "Revenue(£)", "Profit(£)"]

/- Column labels of the cleaned frame, derived columns included. -/
def cleanedColumns : List String :=
  ["Date", "Confectionary", "CountryUK", "Units_Sold", "RevenueGBP", "ProfitGBP",
   "Year", "Month", "Profit_Margin_%"]

/- A row of the loaded spreadsheet after column-name normalization, with
   columns Date, Confectionary, CountryUK, Units_Sold, RevenueGBP and
   ProfitGBP; the Date cell is still an unparsed string. -/
structure RawRow where
  Date : String
  Confectionary : String
  CountryUK : String
  Units_Sold : Int
  RevenueGBP : PFloat
  ProfitGBP : PFloat
deriving DecidableEq, Repr

/- A row of the in-memory frame from the date conversion onwards. The
   derived columns Year, Month and Profit_Margin_% (rendered here as
   `Profit_Margin_percent`) are `none` until their assignment. -/
structure Row where
  Date : Option PDate
  Confectionary : String
  CountryUK : String
  Units_Sold : Int
  RevenueGBP : PFloat
  ProfitGBP : PFloat
  Year : Option Nat := none
  Month : Option String := none
  Profit_Margin_percent : Option PFloat := none
deriving DecidableEq, Repr

/- Line 30 applied to a loaded row: parse the Date cell. -/
def toRow (r : RawRow) : Row :=
  { Date := parseDate r.Date, Confectionary := r.Confectionary,
    CountryUK := r.CountryUK, Units_Sold := r.Units_Sold,
    RevenueGBP := r.RevenueGBP, ProfitGBP := r.ProfitGBP }

/- `DataFrame.drop_duplicates()`: keep the first occurrence of every row
   value (in pandas two NaN cells count as equal here, as they do in the
   structural equality of `PFloat`). -/
def dropDupAux [DecidableEq α] (seen : List α) : List α → List α
  | [] => []
  | a :: as => if a ∈ seen then dropDupAux seen as else a :: dropDupAux (a :: seen) as

def drop_duplicates [DecidableEq α] (l : List α) : List α := dropDupAux [] l

/- Line 33, second half: `dropna(subset=["Date"])`. -/
def dropnaDate (t : List Row) : List Row := t.filter (fun r => r.Date.isSome)

/- Ascending comparison on the Date column; a missing date (NaT) sorts
   last, matching `sort_values`' default na_position="last". -/
def dateLeB : Option PDate → Option PDate → Bool
  | _, none => true
  | none, some _ => false
  | some a, some b => decide (a.key ≤ b.key)

def rowLe (r1 r2 : Row) : Prop := dateLeB r1.Date r2.Date = true

instance : DecidableRel rowLe := fun r1 r2 => decEq (dateLeB r1.Date r2.Date) true

/- Line 36: `df = df.sort_values("Date")`, a deterministic sort by the
   Date column. -/
def sort_values_Date (t : List Row) : List Row := List.insertionSort rowLe t

/- Lines 39-41: assignment of the derived columns. `df["X"] = ...` adds
   the column or overwrites it if present. Profit_Margin_% is
   ProfitGBP / RevenueGBP * 100 in float arithmetic. -/
def deriveRow (r : Row) : Row :=
  { r with
    Year := r.Date.map PDate.y,
    Month := r.Date.map (fun dt => month_name dt.m),
    Profit_Margin_percent := some (PFloat.pmul100 (PFloat.pdiv r.ProfitGBP r.RevenueGBP)) }

/- Lines 30-41 applied to an in-memory frame whose Date column already
   has datetime type (on such a column `pd.to_datetime` with
   errors="coerce" is the identity, so no parse step appears). -/
def cleanFrame (t : List Row) : List Row :=
  (sort_values_Date (dropnaDate (drop_duplicates t))).map deriveRow

/- The full Cleaner on loader output (lines 30-41): parse dates
   day-first with coercion, drop duplicates, drop missing dates, sort by
   date, derive Year / Month / Profit_Margin_%. -/
def clean (t : List RawRow) : List Row := cleanFrame (t.map toRow)

/- groupby key collection: `groupby(sort=True)` sorts the string keys in
   code-point lexicographic order. -/
def strLe (a b : String) : Prop := charListLe a.data b.data = true

instance : DecidableRel strLe := fun a b => decEq (charListLe a.data b.data) true

def groupKeys (f : Row → String) (t : List Row) : List String :=
  List.insertionSort strLe (drop_duplicates (t.map f))

/- `sort_values(ascending=False)` on the value column of a keyed series;
   NaN values are placed last. -/
def descRel {α : Type} (a b : α × PFloat) : Prop := PFloat.ple b.2 a.2 = true

instance {α : Type} : DecidableRel (@descRel α) := fun a b => decEq (PFloat.ple b.2 a.2) true

def sortDescByValue {α : Type} (l : List (α × PFloat)) : List (α × PFloat) :=
  List.insertionSort descRel l

/- Lines 56-60: df.groupby("Confectionary")["Profit_Margin_%"].mean()
   .sort_values(ascending=False). -/
def avg_margin (t : List Row) : List (String × PFloat) :=
  sortDescByValue
    ((groupKeys Row.Confectionary t).map
      (fun k =>
        (k, pmean ((t.filter (fun r => decide (r.Confectionary = k))).map
              (fun r => r.Profit_Margin_percent.getD PFloat.nan)))))

/- Lines 65-69: df.groupby("CountryUK")["RevenueGBP"].sum()
   .sort_values(ascending=False). -/
def region_revenue (t : List Row) : List (String × PFloat) :=
  sortDescByValue
    ((groupKeys Row.CountryUK t).map
      (fun k =>
        (k, psumSkipna ((t.filter (fun r => decide (r.CountryUK = k))).map Row.RevenueGBP))))

/- Group key (Year, Month) of a cleaned row, for the peak-month query. -/
def ymKey (r : Row) : Nat × String := (r.Year.getD 0, r.Month.getD "")

/- Lines 74-80 without the final head(1): groupby(["Year","Month"]) sum
   of RevenueGBP, sorted descending by the sum. Group keys are taken in
   first-encounter order; the ascending key presort `groupby` performs
   only permutes groups with equal sums, an implementation-defined
   tie-break. -/
def month_groups (t : List Row) : List ((Nat × String) × PFloat) :=
  sortDescByValue
    ((drop_duplicates (t.map ymKey)).map
      (fun k =>
        (k, psumSkipna ((t.filter (fun r => decide (ymKey r = k))).map Row.RevenueGBP))))

/- Lines 74-80: `.head(1)`, the single top group. -/
def peak_month (t : List Row) : Option ((Nat × String) × PFloat) :=
  (month_groups t).head?

/- Section 5 of the script: the three aggregator queries in order,
   returned together with the frame they read from. -/
def runAggregates (t : List Row) :
    (List (String × PFloat)) × (List (String × PFloat)) ×
      (Option ((Nat × String) × PFloat)) × List Row :=
  (avg_margin t, region_revenue t, peak_month t, t)

/- Concrete tables used to evaluate the pipeline at specific inputs. -/

/- A cleaned row of confectionary type "A" with the given profit margin. -/
def rowA (mg : PFloat) : Row :=
  { Date := some ⟨2021, 1, 5⟩, Confectionary := "A", CountryUK := "England",
    Units_Sold := 1, RevenueGBP := PFloat.fin 50, ProfitGBP := PFloat.fin 5,
    Year := some 2021, Month := some "January", Profit_Margin_percent := some mg }

/- Type "A" with margin values 10, missing (NaN) and 30. -/
def exC2 : List Row := [rowA (PFloat.fin 10), rowA PFloat.nan, rowA (PFloat.fin 30)]

def rawRow (ds conf ctry : String) (u : Int) (rev prof : ℚ) : RawRow :=
  { Date := ds, Confectionary := conf, CountryUK := ctry, Units_Sold := u,
    RevenueGBP := PFloat.fin rev, ProfitGBP := PFloat.fin prof }

/- Three loaded rows: an exact-duplicate pair and a row whose Date cell
   does not parse. -/
def exC8 : List RawRow :=
  [rawRow "01/02/2021" "Fudge" "England" 4 8 2,
   rawRow "01/02/2021" "Fudge" "England" 4 8 2,
   rawRow "hello" "Toffee" "Wales" 3 6 3]

/- The single row the Cleaner leaves from exC8. -/
def exC8Cleaned : Row :=
  { Date := some ⟨2021, 2, 1⟩, Confectionary := "Fudge", CountryUK := "England",
    Units_Sold := 4, RevenueGBP := PFloat.fin 8, ProfitGBP := PFloat.fin 2,
    Year := some 2021, Month := some "February", Profit_Margin_percent := some (PFloat.fin 25) }

/- A cleaned table with two (Year, Month) groups: January 2021 with
   revenue sums 200 + 300 = 500 and February 2021 with sum 700. -/
def exC7 : List Row :=
  [{ Date := some ⟨2021, 1, 10⟩, Confectionary := "A", CountryUK := "England",
     Units_Sold := 2, RevenueGBP := PFloat.fin 200, ProfitGBP := PFloat.fin 20,
     Year := some 2021, Month := some "January", Profit_Margin_percent := some (PFloat.fin 10) },
   { Date := some ⟨2021, 1, 20⟩, Confectionary := "B", CountryUK := "England",
     Units_Sold := 3, RevenueGBP := PFloat.fin 300, ProfitGBP := PFloat.fin 30,
     Year := some 2021, Month := some "January", Profit_Margin_percent := some (PFloat.fin 10) },
   { Date := some ⟨2021, 2, 5⟩, Confectionary := "A", CountryUK := "Wales",
     Units_Sold := 7, RevenueGBP := PFloat.fin 700, ProfitGBP := PFloat.fin 70,
     Year := some 2021, Month := some "February", Profit_Margin_percent := some (PFloat.fin 10) }]

/- A row with zero revenue and strictly positive profit, before the
   derived-column assignments. -/
def rowZeroRev : Row :=
  { Date := some ⟨2021, 3, 1⟩, Confectionary := "A", CountryUK := "England",
    Units_Sold := 1, RevenueGBP := PFloat.fin 0, ProfitGBP := PFloat.fin 5 }

/- ------------------------------------------------------------------ -/
/- The mkRat-based arithmetic agrees with the field operations on ℚ.  -/
/- ------------------------------------------------------------------ -/

theorem qadd_eq (a b : ℚ) : qadd a b = a + b := by
  rw [qadd, Rat.mkRat_eq_div]
  have ha : (a.den : ℚ) ≠ 0 := by exact_mod_cast a.den_nz
  have hb : (b.den : ℚ) ≠ 0 := by exact_mod_cast b.den_nz
  conv_rhs => rw [← Rat.num_div_den a, ← Rat.num_div_den b]
  push_cast
  field_simp

theorem qmul_eq (a b : ℚ) : qmul a b = a * b := by
  rw [qmul, Rat.mkRat_eq_div]
  have ha : (a.den : ℚ) ≠ 0 := by exact_mod_cast a.den_nz
  have hb : (b.den : ℚ) ≠ 0 := by exact_mod_cast b.den_nz
  conv_rhs => rw [← Rat.num_div_den a, ← Rat.num_div_den b]
  push_cast
  field_simp

theorem qinv_eq (a : ℚ) : qinv a = a⁻¹ := by
  rw [qinv, Rat.inv_def', Rat.divInt_eq_div]
  by_cases h : 0 ≤ a.num
  · rw [if_pos h, Rat.mkRat_eq_div]
    push_cast [Int.cast_natAbs]
    rw [abs_of_nonneg (show (0 : ℚ) ≤ (a.num : ℚ) by exact_mod_cast h)]
  · rw [if_neg h, Rat.mkRat_eq_div]
    push_cast [Int.cast_natAbs]
    rw [abs_of_neg (show (a.num : ℚ) < 0 by exact_mod_cast lt_of_not_ge h)]
    rw [div_neg, neg_div, neg_neg]

theorem qdiv_eq (a b : ℚ) : qdiv a b = a / b := by
  rw [qdiv, qmul_eq, qinv_eq, div_eq_mul_inv]

/- ------------------------------------------------------------------ -/
/- Order-theoretic facts about the sort comparators.                  -/
/- ------------------------------------------------------------------ -/

theorem ple_refl (x : PFloat) : PFloat.ple x x = true := by
  cases x <;> simp [PFloat.ple]

theorem ple_total (x y : PFloat) : PFloat.ple x y = true ∨ PFloat.ple y x = true := by
  cases x <;> cases y <;> simp [PFloat.ple]
  exact le_total _ _

theorem ple_trans {x y z : PFloat} (h1 : PFloat.ple x y = true)
    (h2 : PFloat.ple y z = true) : PFloat.ple x z = true := by
  cases x <;> cases y <;> cases z <;> simp_all [PFloat.ple]
  exact le_trans h1 h2

instance {α : Type} : IsTotal (α × PFloat) descRel :=
  ⟨fun a b => ple_total b.2 a.2⟩

instance {α : Type} : IsTrans (α × PFloat) descRel :=
  ⟨fun _ _ _ h1 h2 => ple_trans h2 h1⟩

theorem dateLeB_total (x y : Option PDate) : dateLeB x y = true ∨ dateLeB y x = true := by
  cases x <;> cases y <;> simp [dateLeB]
  exact Nat.le_total _ _

theorem dateLeB_trans {x y z : Option PDate} (h1 : dateLeB x y = true)
    (h2 : dateLeB y z = true) : dateLeB x z = true := by
  cases x <;> cases y <;> cases z <;> simp_all [dateLeB]
  exact Nat.le_trans h1 h2

instance : IsTotal Row rowLe := ⟨fun a b => dateLeB_total a.Date b.Date⟩

instance : IsTrans Row rowLe := ⟨fun _ _ _ h1 h2 => dateLeB_trans h1 h2⟩

theorem charListLe_total (a b : List Char) :
    charListLe a b = true ∨ charListLe b a = true := by
  induction a generalizing b with
  | nil => left; rfl
  | cons x xs ih =>
    cases b with
    | nil => right; rfl
    | cons y ys =>
      rcases Nat.lt_trichotomy x.toNat y.toNat with h | h | h
      · left; simp [charListLe, h]
      · rcases ih ys with h2 | h2
        · left; simp [charListLe, h, h2]
        · right; simp [charListLe, h, h2]
      · right; simp [charListLe, h]

theorem charListLe_trans {a b c : List Char} (h1 : charListLe a b = true)
    (h2 : charListLe b c = true) : charListLe a c = true := by
  induction a generalizing b c with
  | nil => rfl
  | cons x xs ih =>
    cases b with
    | nil => simp [charListLe] at h1
    | cons y ys =>
      cases c with
      | nil => simp [charListLe] at h2
      | cons z zs =>
        simp only [charListLe, Bool.or_eq_true, Bool.and_eq_true, decide_eq_true_eq,
          beq_iff_eq] at h1 h2 ⊢
        rcases h1 with h1 | ⟨hxy, h1⟩
        · rcases h2 with h2 | ⟨hyz, h2⟩
          · exact Or.inl (Nat.lt_trans h1 h2)
          · exact Or.inl (by omega)
        · rcases h2 with h2 | ⟨hyz, h2⟩
          · exact Or.inl (by omega)
          · exact Or.inr ⟨by omega, ih h1 h2⟩

instance : IsTotal String strLe := ⟨fun a b => charListLe_total a.data b.data⟩

instance : IsTrans String strLe := ⟨fun _ _ _ h1 h2 => charListLe_trans h1 h2⟩

/- ------------------------------------------------------------------ -/
/- drop_duplicates keeps the first occurrence and yields Nodup.       -/
/- ------------------------------------------------------------------ -/

theorem mem_of_mem_dropDupAux [DecidableEq α] {seen : List α} {l : List α} {x : α}
    (h : x ∈ dropDupAux seen l) : x ∈ l := by
  induction l generalizing seen with
  | nil => simp [dropDupAux] at h
  | cons a as ih =>
    by_cases ha : a ∈ seen
    · simp only [dropDupAux, if_pos ha] at h
      exact List.mem_cons_of_mem _ (ih h)
    · simp only [dropDupAux, if_neg ha, List.mem_cons] at h
      rcases h with h | h
      · exact h ▸ List.mem_cons_self _ _
      · exact List.mem_cons_of_mem _ (ih h)

theorem dropDupAux_nodup [DecidableEq α] (seen : List α) (l : List α) :
    (dropDupAux seen l).Nodup ∧ ∀ x ∈ dropDupAux seen l, x ∉ seen := by
  induction l generalizing seen with
  | nil => simp [dropDupAux]
  | cons a as ih =>
    by_cases ha : a ∈ seen
    · simpa [dropDupAux, if_pos ha] using ih seen
    · have h2 := ih (a :: seen)
      simp only [dropDupAux, if_neg ha]
      constructor
      · rw [List.nodup_cons]
        exact ⟨fun hmem => (h2.2 a hmem) (List.mem_cons_self a seen), h2.1⟩
      · intro x hx
        rcases List.mem_cons.1 hx with rfl | hx
        · exact ha
        · exact fun hxs => h2.2 x hx (List.mem_cons_of_mem _ hxs)

theorem dropDupAux_eq_self [DecidableEq α] {l : List α} (hl : l.Nodup) :
    ∀ seen, (∀ x ∈ l, x ∉ seen) → dropDupAux seen l = l := by
  induction l with
  | nil => intro seen _; rfl
  | cons a as ih =>
    intro seen hs
    have ha : a ∉ seen := hs a (List.mem_cons_self _ _)
    simp only [dropDupAux, if_neg ha]
    have hnd := List.nodup_cons.1 hl
    refine congrArg (a :: ·) (ih hnd.2 (a :: seen) ?_)
    intro x hx
    rw [List.mem_cons]
    rintro (rfl | hxs)
    · exact hnd.1 hx
    · exact hs x (List.mem_cons_of_mem _ hx) hxs

theorem drop_duplicates_nodup [DecidableEq α] (l : List α) :
    (drop_duplicates l).Nodup :=
  (dropDupAux_nodup [] l).1

theorem drop_duplicates_eq_self [DecidableEq α] {l : List α} (hl : l.Nodup) :
    drop_duplicates l = l :=
  dropDupAux_eq_self hl [] (by simp)

theorem mem_of_mem_drop_duplicates [DecidableEq α] {l : List α} {x : α}
    (h : x ∈ drop_duplicates l) : x ∈ l :=
  mem_of_mem_dropDupAux h

/- ------------------------------------------------------------------ -/
/- Invariants of the Cleaner.                                         -/
/- ------------------------------------------------------------------ -/

theorem deriveRow_Date (r : Row) : (deriveRow r).Date = r.Date := rfl

theorem deriveRow_idem (r : Row) : deriveRow (deriveRow r) = deriveRow r := rfl

theorem mem_base_of_mem_sorted {t : List Row} {r : Row}
    (h : r ∈ sort_values_Date (dropnaDate (drop_duplicates t))) : r ∈ t := by
  have h1 : r ∈ dropnaDate (drop_duplicates t) :=
    ((List.perm_insertionSort rowLe _).mem_iff).1 h
  exact mem_of_mem_drop_duplicates (List.mem_of_mem_filter h1)

theorem clean_dates (t : List RawRow) : ∀ r ∈ clean t, r.Date.isSome = true := by
  intro r hr
  simp only [clean, cleanFrame, List.mem_map] at hr
  rcases hr with ⟨r0, hr0, rfl⟩
  have h1 : r0 ∈ dropnaDate (drop_duplicates (List.map toRow t)) :=
    ((List.perm_insertionSort rowLe _).mem_iff).1 hr0
  simp only [dropnaDate, List.mem_filter] at h1
  exact h1.2

theorem clean_sorted (t : List RawRow) : List.Sorted rowLe (clean t) := by
  have hs : List.Sorted rowLe
      (sort_values_Date (dropnaDate (drop_duplicates (List.map toRow t)))) := by
    unfold sort_values_Date
    exact List.sorted_insertionSort rowLe _
  simp only [clean, cleanFrame]
  exact List.Pairwise.map deriveRow (fun _ _ hab => hab) hs

theorem toRow_derived_none {t : List RawRow} {r : Row} (h : r ∈ List.map toRow t) :
    r.Year = none ∧ r.Month = none ∧ r.Profit_Margin_percent = none := by
  rcases List.mem_map.1 h with ⟨r0, _, rfl⟩
  exact ⟨rfl, rfl, rfl⟩

theorem deriveRow_inj_on {x y : Row}
    (hx : x.Year = none ∧ x.Month = none ∧ x.Profit_Margin_percent = none)
    (hy : y.Year = none ∧ y.Month = none ∧ y.Profit_Margin_percent = none)
    (h : deriveRow x = deriveRow y) : x = y := by
  cases x
  cases y
  simp_all [deriveRow]

theorem clean_nodup (t : List RawRow) : (clean t).Nodup := by
  have h1 : (dropnaDate (drop_duplicates (List.map toRow t))).Nodup :=
    (drop_duplicates_nodup _).filter _
  have h2 : (sort_values_Date (dropnaDate (drop_duplicates (List.map toRow t)))).Nodup :=
    ((List.perm_insertionSort rowLe _).symm).nodup h1
  simp only [clean, cleanFrame]
  refine List.Nodup.map_on ?_ h2
  intro x hx y hy hxy
  exact deriveRow_inj_on (toRow_derived_none (mem_base_of_mem_sorted hx))
    (toRow_derived_none (mem_base_of_mem_sorted hy)) hxy

theorem dropnaDate_eq_self {t : List Row} (h : ∀ r ∈ t, r.Date.isSome = true) :
    dropnaDate t = t :=
  List.filter_eq_self.2 h

theorem cleanFrame_fixpoint (t : List RawRow) : cleanFrame (clean t) = clean t := by
  have e1 : drop_duplicates (clean t) = clean t :=
    drop_duplicates_eq_self (clean_nodup t)
  have e2 : dropnaDate (clean t) = clean t :=
    dropnaDate_eq_self (clean_dates t)
  have e3 : sort_values_Date (clean t) = clean t :=
    (clean_sorted t).insertionSort_eq
  have e4 : (clean t).map deriveRow = clean t := by
    simp only [clean, cleanFrame, List.map_map]
    exact List.map_congr_left (fun a _ => deriveRow_idem a)
  show (sort_values_Date (dropnaDate (drop_duplicates (clean t)))).map deriveRow = clean t
  rw [e1, e2, e3, e4]

/- ------------------------------------------------------------------ -/
/- The claims.                                                        -/
/- ------------------------------------------------------------------ -/

/-- C1: the spec demands that a zero-revenue row's Profit_Margin_% be a
missing value that never reaches the per-type mean. Line 41 of the code
instead divides in float arithmetic: a row with RevenueGBP = 0 and
ProfitGBP = 5 gets margin +infinity, which is not the missing marker
(NaN) and drives the avg_margin per-type mean to +infinity. -/
theorem C1_zero_revenue_margin_infinite :
    (deriveRow rowZeroRev).Profit_Margin_percent = some PFloat.posInf ∧
    PFloat.posInf ≠ PFloat.nan ∧
    avg_margin [deriveRow rowZeroRev, rowA (PFloat.fin 10)] = [("A", PFloat.posInf)] := by
  decide

/-- C2: avg_margin groups the cleaned table by confectionary type; every
produced value is the mean of that type's Profit_Margin_% entries with
missing (NaN) margins excluded (pmean filters them out); the output is
sorted descending by value; and on a type with margins 10, missing, 30
the value is exactly 20. -/
theorem C2_avg_margin_mean_excludes_missing :
    (∀ t : List Row, List.Sorted descRel (avg_margin t)) ∧
    (∀ (t : List Row), ∀ p ∈ avg_margin t,
      p.2 = pmean ((t.filter (fun r => decide (r.Confectionary = p.1))).map
        (fun r => r.Profit_Margin_percent.getD PFloat.nan))) ∧
    avg_margin exC2 = [("A", PFloat.fin 20)] := by
  refine ⟨?_, ?_, by decide⟩
  · intro t
    unfold avg_margin sortDescByValue
    exact List.sorted_insertionSort _ _
  · intro t p hp
    unfold avg_margin sortDescByValue at hp
    have hp2 := ((List.perm_insertionSort descRel _).mem_iff).1 hp
    rcases List.mem_map.1 hp2 with ⟨k, _, rfl⟩
    rfl

/-- C2 witness: the theorem applied to the concrete table exC2 and to its
entry ("A", 20), discharging the membership hypothesis there. -/
theorem C2_avg_margin_witness :
    List.Sorted descRel (avg_margin exC2) ∧
    PFloat.fin 20 = pmean ((exC2.filter (fun r => decide (r.Confectionary = "A"))).map
      (fun r => r.Profit_Margin_percent.getD PFloat.nan)) :=
  ⟨C2_avg_margin_mean_excludes_missing.1 exC2,
   C2_avg_margin_mean_excludes_missing.2.1 exC2 ("A", PFloat.fin 20) (by decide)⟩

/-- C3 counterexample: column-name normalization is not collision-free on
every input column set: the two distinct source names "A B" and "A_B"
both normalize to "A_B". -/
theorem C3_collision_counterexample :
    ¬ (List.map cleanColumnName ["A B", "A_B"]).Nodup ∧ ("A B" : String) ≠ "A_B" := by
  decide

/-- C3 (amended): normalization maps "Revenue (£)" exactly to
"Revenue_GBP", and on the source schema's column set it produces
pairwise-distinct identifiers; collision-freedom for arbitrary input
column sets does not hold (see the counterexample). -/
theorem C3_revenue_gbp_normalization :
    cleanColumnName "Revenue (£)" = "Revenue_GBP" ∧
    (sourceColumns.map cleanColumnName).Nodup := by
  decide

/-- C4: the Cleaner is idempotent: re-running the cleaning sequence on an
already-cleaned table changes nothing (the date column is already of
datetime type, so the to_datetime step is the identity and cleanFrame is
the remaining sequence), and re-running column-name normalization on the
cleaned column labels (derived columns included) is the identity. -/
theorem C4_cleaner_idempotent :
    (∀ t : List RawRow, cleanFrame (clean t) = clean t) ∧
    cleanedColumns.map cleanColumnName = cleanedColumns :=
  ⟨cleanFrame_fixpoint, by decide⟩

/-- C4 witness: idempotence evaluated on the concrete table exC8. -/
theorem C4_cleaner_idempotent_witness : cleanFrame (clean exC8) = clean exC8 :=
  C4_cleaner_idempotent.1 exC8

/-- C5: for every input table, every row of the cleaned output has a
non-missing Date, and the cleaned output (with the derived columns
already added) is sorted non-decreasing by Date. -/
theorem C5_dates_present_and_sorted (t : List RawRow) :
    (∀ r ∈ clean t, r.Date.isSome = true) ∧ List.Sorted rowLe (clean t) :=
  ⟨clean_dates t, clean_sorted t⟩

/-- C5 witness: the theorem applied to the concrete table exC8,
discharging the row-membership hypothesis at the single cleaned row. -/
theorem C5_dates_present_and_sorted_witness :
    exC8Cleaned.Date.isSome = true ∧ List.Sorted rowLe (clean exC8) :=
  ⟨(C5_dates_present_and_sorted exC8).1 exC8Cleaned (by decide),
   (C5_dates_present_and_sorted exC8).2⟩

/-- C6: for every input table, no two rows of the cleaned output are
identical across all columns, derived columns included: dedup happens
before derivation, and the derived columns are functions of columns on
which the deduplicated rows already differ. -/
theorem C6_no_duplicate_rows (t : List RawRow) : (clean t).Nodup :=
  clean_nodup t

/-- C6 witness: no-duplicates evaluated on the concrete table exC8. -/
theorem C6_no_duplicate_rows_witness : (clean exC8).Nodup :=
  C6_no_duplicate_rows exC8

/-- C7: peak_month returns a group of the (Year, Month) revenue-sum
grouping whose sum is maximal (every group's sum is ≤ the returned one
in the NaN-last value order), and on the concrete table whose two months
sum to 500 and 700 it returns the 700 month. -/
theorem C7_peak_revenue_period :
    (∀ (t : List Row) (e : (Nat × String) × PFloat), peak_month t = some e →
      ∀ g ∈ month_groups t, PFloat.ple g.2 e.2 = true) ∧
    peak_month exC7 = some ((2021, "February"), PFloat.fin 700) := by
  constructor
  · intro t e he g hg
    have hs : List.Sorted descRel (month_groups t) := by
      unfold month_groups sortDescByValue
      exact List.sorted_insertionSort _ _
    cases hm : month_groups t with
    | nil =>
      rw [peak_month, hm] at he
      simp at he
    | cons a as =>
      rw [peak_month, hm] at he
      simp only [List.head?_cons, Option.some.injEq] at he
      subst he
      rw [hm] at hg hs
      rcases List.mem_cons.1 hg with rfl | hg2
      · exact ple_refl _
      · exact List.rel_of_sorted_cons hs g hg2
  · decide

/-- C7 witness: the maximality part applied to the concrete table exC7,
its peak entry and its other group (January, sum 500), discharging both
hypotheses there. -/
theorem C7_peak_revenue_period_witness :
    peak_month exC7 = some ((2021, "February"), PFloat.fin 700) ∧
    PFloat.ple (PFloat.fin 500) (PFloat.fin 700) = true :=
  ⟨C7_peak_revenue_period.2,
   C7_peak_revenue_period.1 exC7 ((2021, "February"), PFloat.fin 700)
     C7_peak_revenue_period.2 ((2021, "January"), PFloat.fin 500) (by decide)⟩

/-- C8: on the 3-row input with one exact-duplicate pair and one row with
an unparseable date, the unparseable date is coerced to missing rather
than raising, one duplicate is removed, the missing-date row is dropped,
and exactly 1 row remains. -/
theorem C8_duplicate_and_unparseable_scenario :
    exC8.length = 3 ∧ clean exC8 = [exC8Cleaned] := by
  decide

/-- C9: running the three aggregator queries returns the frame they read
from unchanged: rows, order and values are exactly the input table. -/
theorem C9_aggregators_read_only (t : List Row) : (runAggregates t).2.2.2 = t :=
  rfl

/-- C9 witness: the frame condition evaluated on the concrete table exC7. -/
theorem C9_aggregators_read_only_witness : (runAggregates exC7).2.2.2 = exC7 :=
  C9_aggregators_read_only exC7

/-- C10: the cleaning-and-aggregation pipeline is deterministic: equal
input tables give equal cleaned tables and equal results for all three
aggregates (the pipeline is a pure function of the input). -/
theorem C10_pipeline_deterministic (t1 t2 : List RawRow) (h : t1 = t2) :
    clean t1 = clean t2 ∧ avg_margin (clean t1) = avg_margin (clean t2) ∧
      region_revenue (clean t1) = region_revenue (clean t2) ∧
      peak_month (clean t1) = peak_month (clean t2) := by
  subst h
  exact ⟨rfl, rfl, rfl, rfl⟩

/-- C10 witness: determinism applied to two (syntactically equal) copies
of the concrete table exC8, discharging the equality hypothesis. -/
theorem C10_pipeline_deterministic_witness :
    clean exC8 = clean exC8 ∧ avg_margin (clean exC8) = avg_margin (clean exC8) ∧
      region_revenue (clean exC8) = region_revenue (clean exC8) ∧
      peak_month (clean exC8) = peak_month (clean exC8) :=
  C10_pipeline_deterministic exC8 exC8 rfl

end Confectionary
